import Mathlib

/-!
Verification development for the AutoGenre Pro metadata pipeline.

This file gives a shallow embedding of the two batch drivers in
`src/App.tsx` — the resolution pass inside `handleStartScan`
(lines 74–88) and the apply pass `handleApplyChanges` (lines 101–194) —
together with the data model of `src/types.ts`, and proves the frozen
claims about them.

Conventions of the embedding:
- JavaScript truthiness is modelled explicitly: a nullable string is
  truthy iff it is present and non-empty; a nullable number is truthy
  iff it is present and nonzero.  `a || b` on nullable values becomes
  `jsOrStr` / `jsOrInt`.
- Each external collaborator (`fetch_metadata`, `update_metadata`,
  `rename_file`, `organize_files`) is an oracle indexed by the file's
  position in the inventory, since each is invoked at most once per
  file and may behave arbitrarily per call.  A failing call ("throw")
  is `none` / `Except.error`.
- Every collaborator invocation is recorded in an event trace so that
  "call was (not) attempted" claims are expressible.
- Progress values are rationals; the source's floating-point division
  on the small integers involved here is exact.
-/

/-- Semantic tag set of one audio file (`Metadata` in `types.ts`).
All fields are nullable; `year`/`bpm` are `number | null` in the source. -/
structure Metadata where
  title : Option String
  artist : Option String
  album : Option String
  genre : Option String
  year : Option Int
  bpm : Option Int
deriving DecidableEq, Inhabited

/-- Confidence level of one provider suggestion (`'High' | 'Medium' | 'Low'`). -/
inductive Confidence where
  | High
  | Medium
  | Low
deriving DecidableEq, Inhabited

/-- One suggestion from one provider (`MetadataResult` in `types.ts`). -/
structure MetadataResult where
  genre : Option String
  artist : Option String
  confidence : Confidence
  source : String
deriving DecidableEq, Inhabited

/-- One inventory entry (`EnhancedAudioFile` in `types.ts`): an audio file
plus the optional ranked suggestion list attached during resolution. -/
structure EnhancedAudioFile where
  path : String
  filename : String
  extension : String
  current_metadata : Option Metadata
  suggested_metadata : Option (List MetadataResult)
  selected_genre : Option String
deriving DecidableEq, Inhabited

/-- Process-wide configuration (`AppSettings` in `types.ts`). -/
structure AppSettings where
  spotify_client_id : String
  spotify_client_secret : String
  folder_pattern : String
  backup_before_changes : Bool
  organize_files : Bool
  rename_files : Bool
deriving DecidableEq, Inhabited

/-- JavaScript truthiness of a nullable string: present and non-empty. -/
def strTruthy : Option String → Bool
  | some s => decide (s ≠ "")
  | none => false

/-- JavaScript truthiness of a nullable number: present and nonzero. -/
def intTruthy : Option Int → Bool
  | some n => decide (n ≠ 0)
  | none => false

/-- JavaScript `a || b` on nullable strings. -/
def jsOrStr (a b : Option String) : Option String :=
  if strTruthy a then a else b

/-- JavaScript `a || b` on nullable numbers. -/
def jsOrInt (a b : Option Int) : Option Int :=
  if intTruthy a then a else b

/-- JavaScript `s.split(sep)` for a one-character separator, on the
character list of the string: splits at every occurrence, keeping empty
segments, with `split c [] = [[]]`. -/
def splitChar (c : Char) : List Char → List (List Char)
  | [] => [[]]
  | x :: xs =>
      if x = c then [] :: splitChar c xs
      else
        match splitChar c xs with
        | h :: t => (x :: h) :: t
        | [] => [[x]]

/-- JavaScript `s.split(c).pop()`: the last segment of the split
(`split` never returns an empty array, so `pop` always yields a segment). -/
def jsSplitPop (c : Char) (s : String) : String :=
  String.mk ((splitChar c s.toList).getLastD [])

/-- Effective metadata built in `handleApplyChanges` lines 119–126 from a
file's current metadata and the top suggestion: suggested genre/artist
override via `||`, all other fields are `current || null`. -/
def effectiveMetadata (f : EnhancedAudioFile) (top : MetadataResult) : Metadata :=
  { title := jsOrStr (f.current_metadata.bind Metadata.title) none
    artist := jsOrStr top.artist (jsOrStr (f.current_metadata.bind Metadata.artist) none)
    album := jsOrStr (f.current_metadata.bind Metadata.album) none
    genre := jsOrStr top.genre (jsOrStr (f.current_metadata.bind Metadata.genre) none)
    year := jsOrInt (f.current_metadata.bind Metadata.year) none
    bpm := jsOrInt (f.current_metadata.bind Metadata.bpm) none }

/-- Condition of `handleApplyChanges` lines 113–117: the file has a
non-empty suggestion list and its element 0 has a truthy genre or artist. -/
def hasApplicableSuggestion (f : EnhancedAudioFile) : Bool :=
  match f.suggested_metadata with
  | some (top :: _) => strTruthy top.genre || strTruthy top.artist
  | _ => false

/-- Condition of `handleStartScan` line 76: both
`file.current_metadata?.artist` and `file.current_metadata?.title` truthy. -/
def eligibleForFetch (f : EnhancedAudioFile) : Bool :=
  strTruthy (f.current_metadata.bind Metadata.artist)
    && strTruthy (f.current_metadata.bind Metadata.title)

/-- Mutating collaborator invocations made during the apply pass, with the
arguments passed at the call site. -/
inductive ApplyEvent where
  | updateCall (path : String) (md : Metadata) (backup : Bool)
  | renameCall (path : String) (md : Metadata)
  | organizeCall (path : String) (md : Metadata) (baseFolder : String)
deriving DecidableEq

/-- Outcome of the apply-pass loop body for one file: the (possibly
mutated) file, whether `successCount` / `errorCount` / `organizedCount`
were incremented, the error-list entry if any, and the calls made. -/
structure StepResult where
  file : EnhancedAudioFile
  succ : Bool
  errMsg : Option String
  organized : Bool
  events : List ApplyEvent
deriving DecidableEq

/-- Rename step, `handleApplyChanges` lines 138–150: only when
`rename_files` is set; on success the path becomes the returned path and
the filename becomes `newPath.split('/').pop() || old`; a throw is logged
and ignored.  Returns the file, the running `currentPath`, and the calls. -/
def renamePhase (s : AppSettings) (md : Metadata) (ren : Option String)
    (f1 : EnhancedAudioFile) (origPath : String) :
    EnhancedAudioFile × String × List ApplyEvent :=
  if s.rename_files then
    match ren with
    | some newPath =>
        let seg := jsSplitPop '/' newPath
        ({ f1 with path := newPath
                   filename := if seg = "" then f1.filename else seg },
          newPath, [ApplyEvent.renameCall origPath md])
    | none => (f1, origPath, [ApplyEvent.renameCall origPath md])
  else (f1, origPath, [])

/-- Organize step, `handleApplyChanges` lines 152–164: only when
`organize_files` is set and the selected folder is truthy; on success the
path becomes the returned path and `organizedCount` is incremented; a
throw is logged and ignored. -/
def organizePhase (s : AppSettings) (folder : String) (md : Metadata)
    (org : Option String) (f2 : EnhancedAudioFile) (currentPath : String) :
    EnhancedAudioFile × Bool × List ApplyEvent :=
  if s.organize_files && decide (folder ≠ "") then
    match org with
    | some newPath =>
        ({ f2 with path := newPath }, true, [ApplyEvent.organizeCall currentPath md folder])
    | none => (f2, false, [ApplyEvent.organizeCall currentPath md folder])
  else (f2, false, [])

/-- Loop body of `handleApplyChanges` (lines 110–174) for one file, with
the oracle answers of the three collaborators for this file.  Skips files
without an applicable suggestion; a write failure is terminal for the
file; a write success updates `current_metadata` then runs the optional
rename and organize phases and counts the file as a success. -/
def applyStep (s : AppSettings) (folder : String) (upd : Except String Unit)
    (ren org : Option String) (f : EnhancedAudioFile) : StepResult :=
  match f.suggested_metadata with
  | some (top :: _) =>
      if strTruthy top.genre || strTruthy top.artist then
        let md := effectiveMetadata f top
        match upd with
        | Except.error msg =>
            { file := f, succ := false,
              errMsg := some (f.filename ++ ": " ++ msg), organized := false,
              events := [ApplyEvent.updateCall f.path md s.backup_before_changes] }
        | Except.ok _ =>
            let f1 := { f with current_metadata := some md }
            let r := renamePhase s md ren f1 f.path
            let o := organizePhase s folder md org r.1 r.2.1
            { file := o.1, succ := true, errMsg := none, organized := o.2.1,
              events := ApplyEvent.updateCall f.path md s.backup_before_changes
                :: (r.2.2 ++ o.2.2) }
      else { file := f, succ := false, errMsg := none, organized := false, events := [] }
  | _ => { file := f, succ := false, errMsg := none, organized := false, events := [] }

/-- The apply-pass loop over the inventory, carrying the index so each
file gets its own oracle answers. -/
def applySteps (s : AppSettings) (folder : String) (upd : Nat → Except String Unit)
    (ren org : Nat → Option String) : Nat → List EnhancedAudioFile → List StepResult
  | _, [] => []
  | i, f :: rest =>
      applyStep s folder (upd i) (ren i) (org i) f
        :: applySteps s folder upd ren org (i + 1) rest

/-- Total number of `successCount++` executions. -/
def countSuccesses (l : List StepResult) : Nat := (l.filter (fun t => t.succ)).length

/-- Total number of `errorCount++` executions. -/
def countErrors (l : List StepResult) : Nat := (l.filter (fun t => t.errMsg.isSome)).length

/-- Total number of `organizedCount++` executions. -/
def countOrganized (l : List StepResult) : Nat := (l.filter (fun t => t.organized)).length

/-- The error list accumulated by `errors.push` in loop order. -/
def collectErrors (l : List StepResult) : List String := l.filterMap (fun t => t.errMsg)

/-- All mutating collaborator calls in loop order. -/
def collectEvents (l : List StepResult) : List ApplyEvent := (l.map (fun t => t.events)).flatten

/-- Per-file progress value of the apply pass: `((i+1)/n)*100`. -/
def appProgressFormula (n : Nat) (i : Nat) : ℚ :=
  (((i : ℚ) + 1) / (n : ℚ)) * 100

/-- Per-file progress value of the resolution pass: `50 + ((i+1)/n)*50`. -/
def resProgressFormula (n : Nat) (i : Nat) : ℚ :=
  50 + (((i : ℚ) + 1) / (n : ℚ)) * 50

/-- Aggregate result of `handleApplyChanges` (lines 101–194). -/
structure ApplyResult where
  files : List EnhancedAudioFile
  successCount : Nat
  errorCount : Nat
  organizedCount : Nat
  errors : List String
  events : List ApplyEvent
  progressUpdates : List ℚ
  finalProgress : ℚ
  statusMessage : String
deriving DecidableEq

/-- The whole apply pass: run the loop, aggregate counters and the error
list, record the `setProgress(((i+1)/files.length)*100)` sequence (the
progress state starts at 0 from `setProgress(0)`), and build the final
status message of lines 185–191. -/
def applyPass (s : AppSettings) (folder : String) (upd : Nat → Except String Unit)
    (ren org : Nat → Option String) (files : List EnhancedAudioFile) : ApplyResult :=
  let steps := applySteps s folder upd ren org 0 files
  let n := files.length
  let ps := (List.range n).map (appProgressFormula n)
  let sc := countSuccesses steps
  let oc := countOrganized steps
  let ec := countErrors steps
  let msg1 := "Completed! " ++ toString sc ++ " files updated successfully"
  let msg2 := if oc > 0 then msg1 ++ ", " ++ toString oc ++ " organized" else msg1
  let msg3 := if ec > 0 then msg2 ++ ", " ++ toString ec ++ " failed" else msg2
  { files := steps.map (fun t => t.file)
    successCount := sc
    errorCount := ec
    organizedCount := oc
    errors := collectErrors steps
    events := collectEvents steps
    progressUpdates := ps
    finalProgress := ps.getLastD 0
    statusMessage := msg3 }

/-- Collaborator invocations made during the resolution pass. -/
inductive ResolveEvent where
  | fetchCall (artist title : String)
deriving DecidableEq

/-- Outcome of the resolution loop body for one file. -/
structure ResolveStepResult where
  file : EnhancedAudioFile
  events : List ResolveEvent
deriving DecidableEq

/-- Loop body of the resolution pass, `handleStartScan` lines 74–86: fetch
only when both artist and title are truthy; on success attach the returned
ranked sequence; a throw is logged and the file left untouched. -/
def resolveStep (fetch : Option (List MetadataResult)) (f : EnhancedAudioFile) :
    ResolveStepResult :=
  if eligibleForFetch f then
    let a := (f.current_metadata.bind Metadata.artist).getD ""
    let t := (f.current_metadata.bind Metadata.title).getD ""
    match fetch with
    | some rs => { file := { f with suggested_metadata := some rs }
                   events := [ResolveEvent.fetchCall a t] }
    | none => { file := f, events := [ResolveEvent.fetchCall a t] }
  else { file := f, events := [] }

/-- The resolution loop over the inventory, carrying the index. -/
def resolveSteps (fetch : Nat → Option (List MetadataResult)) :
    Nat → List EnhancedAudioFile → List ResolveStepResult
  | _, [] => []
  | i, f :: rest => resolveStep (fetch i) f :: resolveSteps fetch (i + 1) rest

/-- All fetch calls of the resolution pass in loop order. -/
def collectResolveEvents (l : List ResolveStepResult) : List ResolveEvent :=
  (l.map (fun t => t.events)).flatten

/-- Aggregate result of the resolution pass. -/
structure ResolveResult where
  files : List EnhancedAudioFile
  events : List ResolveEvent
  progressUpdates : List ℚ
  finalProgress : ℚ
deriving DecidableEq

/-- The whole resolution pass over an inventory: run the loop and record
the `setProgress(50 + ((i+1)/n)*50)` sequence (the progress state is 50
from `setProgress(50)` just before the loop). -/
def resolutionPass (fetch : Nat → Option (List MetadataResult))
    (files : List EnhancedAudioFile) : ResolveResult :=
  let steps := resolveSteps fetch 0 files
  let n := files.length
  let ps := (List.range n).map (resProgressFormula n)
  { files := steps.map (fun t => t.file)
    events := collectResolveEvents steps
    progressUpdates := ps
    finalProgress := ps.getLastD 50 }

-- Sample values used by witnesses and counterexamples.

/-- Sample current metadata with all fields known. -/
def mdFull : Metadata :=
  { title := some "One More Time", artist := some "Daft Punk",
    album := some "Discovery", genre := some "Disco",
    year := some 2000, bpm := some 123 }

/-- Sample provider suggestion. -/
def topHouse : MetadataResult :=
  { genre := some "House", artist := some "Daft Punk",
    confidence := Confidence.High, source := "X" }

/-- Sample annotated file carrying `topHouse` as its accepted suggestion. -/
def fW : EnhancedAudioFile :=
  { path := "/music/one.mp3", filename := "one.mp3", extension := "mp3",
    current_metadata := some mdFull, suggested_metadata := some [topHouse],
    selected_genre := none }

/-- Default settings shape (rename and organize disabled). -/
def settingsW : AppSettings :=
  { spotify_client_id := "", spotify_client_secret := "",
    folder_pattern := "\x7bgenre\x7d", backup_before_changes := true,
    organize_files := false, rename_files := false }

/-- Settings with rename enabled. -/
def settingsRen : AppSettings :=
  { settingsW with rename_files := true }

-- Helper lemmas about the loop embeddings.

theorem applySteps_length (s : AppSettings) (folder : String)
    (upd : Nat → Except String Unit) (ren org : Nat → Option String)
    (i : Nat) (l : List EnhancedAudioFile) :
    (applySteps s folder upd ren org i l).length = l.length := by
  induction l generalizing i with
  | nil => rfl
  | cons f rest ih => simp [applySteps, ih]

theorem applySteps_append (s : AppSettings) (folder : String)
    (upd : Nat → Except String Unit) (ren org : Nat → Option String)
    (i : Nat) (xs ys : List EnhancedAudioFile) :
    applySteps s folder upd ren org i (xs ++ ys)
      = applySteps s folder upd ren org i xs
        ++ applySteps s folder upd ren org (i + xs.length) ys := by
  induction xs generalizing i with
  | nil => simp [applySteps]
  | cons f rest ih =>
      have hn : i + (rest.length + 1) = (i + 1) + rest.length := by omega
      simp only [List.cons_append, applySteps, List.length_cons, hn, List.append_eq, ih]

theorem resolveSteps_length (fetch : Nat → Option (List MetadataResult))
    (i : Nat) (l : List EnhancedAudioFile) :
    (resolveSteps fetch i l).length = l.length := by
  induction l generalizing i with
  | nil => rfl
  | cons f rest ih => simp [resolveSteps, ih]

theorem resolveSteps_append (fetch : Nat → Option (List MetadataResult))
    (i : Nat) (xs ys : List EnhancedAudioFile) :
    resolveSteps fetch i (xs ++ ys)
      = resolveSteps fetch i xs ++ resolveSteps fetch (i + xs.length) ys := by
  induction xs generalizing i with
  | nil => simp [resolveSteps]
  | cons f rest ih =>
      have hn : i + (rest.length + 1) = (i + 1) + rest.length := by omega
      simp only [List.cons_append, resolveSteps, List.length_cons, hn, List.append_eq, ih]

theorem getD_append_cons {α : Type} (l1 : List α) (a : α) (l2 : List α) (d : α) :
    (l1 ++ a :: l2).getD l1.length d = a := by
  induction l1 with
  | nil => rfl
  | cons x t ih => simpa using ih

/-- The applied steps of an inventory split around one distinguished file. -/
theorem applySteps_split (s : AppSettings) (folder : String)
    (upd : Nat → Except String Unit) (ren org : Nat → Option String)
    (xs ys : List EnhancedAudioFile) (f : EnhancedAudioFile) :
    applySteps s folder upd ren org 0 (xs ++ f :: ys)
      = applySteps s folder upd ren org 0 xs
        ++ applyStep s folder (upd xs.length) (ren xs.length) (org xs.length) f
          :: applySteps s folder upd ren org (xs.length + 1) ys := by
  rw [applySteps_append]
  simp [applySteps]

/-- The resolution steps of an inventory split around one distinguished file. -/
theorem resolveSteps_split (fetch : Nat → Option (List MetadataResult))
    (xs ys : List EnhancedAudioFile) (f : EnhancedAudioFile) :
    resolveSteps fetch 0 (xs ++ f :: ys)
      = resolveSteps fetch 0 xs
        ++ resolveStep (fetch xs.length) f :: resolveSteps fetch (xs.length + 1) ys := by
  rw [resolveSteps_append]
  simp [resolveSteps]

theorem countSuccesses_append (a b : List StepResult) :
    countSuccesses (a ++ b) = countSuccesses a + countSuccesses b := by
  simp [countSuccesses]

theorem countSuccesses_cons (x : StepResult) (l : List StepResult) :
    countSuccesses (x :: l) = (if x.succ then 1 else 0) + countSuccesses l := by
  by_cases h : x.succ <;> simp [countSuccesses, List.filter_cons, h, Nat.add_comm]

theorem countErrors_append (a b : List StepResult) :
    countErrors (a ++ b) = countErrors a + countErrors b := by
  simp [countErrors]

theorem countErrors_cons (x : StepResult) (l : List StepResult) :
    countErrors (x :: l) = (if x.errMsg.isSome then 1 else 0) + countErrors l := by
  by_cases h : x.errMsg.isSome <;> simp [countErrors, List.filter_cons, h, Nat.add_comm]

theorem countOrganized_append (a b : List StepResult) :
    countOrganized (a ++ b) = countOrganized a + countOrganized b := by
  simp [countOrganized]

theorem countOrganized_cons (x : StepResult) (l : List StepResult) :
    countOrganized (x :: l) = (if x.organized then 1 else 0) + countOrganized l := by
  by_cases h : x.organized <;> simp [countOrganized, List.filter_cons, h, Nat.add_comm]

theorem collectErrors_append (a b : List StepResult) :
    collectErrors (a ++ b) = collectErrors a ++ collectErrors b := by
  simp [collectErrors]

theorem collectErrors_cons (x : StepResult) (l : List StepResult) :
    collectErrors (x :: l) = x.errMsg.toList ++ collectErrors l := by
  cases h : x.errMsg <;> simp [collectErrors, List.filterMap_cons, h]

theorem collectEvents_append (a b : List StepResult) :
    collectEvents (a ++ b) = collectEvents a ++ collectEvents b := by
  simp [collectEvents]

theorem collectEvents_cons (x : StepResult) (l : List StepResult) :
    collectEvents (x :: l) = x.events ++ collectEvents l := by
  simp [collectEvents]

theorem collectResolveEvents_append (a b : List ResolveStepResult) :
    collectResolveEvents (a ++ b) = collectResolveEvents a ++ collectResolveEvents b := by
  simp [collectResolveEvents]

theorem collectResolveEvents_cons (x : ResolveStepResult) (l : List ResolveStepResult) :
    collectResolveEvents (x :: l) = x.events ++ collectResolveEvents l := by
  simp [collectResolveEvents]

-- Per-phase preservation lemmas.

theorem renamePhase_current_metadata (s : AppSettings) (md : Metadata)
    (ren : Option String) (f1 : EnhancedAudioFile) (origPath : String) :
    (renamePhase s md ren f1 origPath).1.current_metadata = f1.current_metadata := by
  cases hb : s.rename_files <;> cases ren <;> simp [renamePhase, hb]

theorem organizePhase_current_metadata (s : AppSettings) (folder : String)
    (md : Metadata) (org : Option String) (f2 : EnhancedAudioFile) (currentPath : String) :
    (organizePhase s folder md org f2 currentPath).1.current_metadata
      = f2.current_metadata := by
  unfold organizePhase
  cases org <;> split <;> simp

theorem organizePhase_filename (s : AppSettings) (folder : String)
    (md : Metadata) (org : Option String) (f2 : EnhancedAudioFile) (currentPath : String) :
    (organizePhase s folder md org f2 currentPath).1.filename = f2.filename := by
  unfold organizePhase
  cases org <;> split <;> simp

-- Per-step lemmas for the apply loop body.

theorem applyStep_skip (s : AppSettings) (folder : String) (upd : Except String Unit)
    (ren org : Option String) (f : EnhancedAudioFile)
    (h : hasApplicableSuggestion f = false) :
    applyStep s folder upd ren org f
      = { file := f, succ := false, errMsg := none, organized := false, events := [] } := by
  unfold applyStep
  unfold hasApplicableSuggestion at h
  match hsm : f.suggested_metadata with
  | none => simp [hsm]
  | some [] => simp [hsm]
  | some (top :: rest) =>
      rw [hsm] at h
      have h2 : (strTruthy top.genre || strTruthy top.artist) = false := h
      simp [hsm, h2]

theorem applyStep_error (s : AppSettings) (folder : String)
    (ren org : Option String) (f : EnhancedAudioFile) (top : MetadataResult)
    (rest : List MetadataResult) (msg : String)
    (hs : f.suggested_metadata = some (top :: rest))
    (ht : (strTruthy top.genre || strTruthy top.artist) = true) :
    applyStep s folder (Except.error msg) ren org f
      = { file := f, succ := false, errMsg := some (f.filename ++ ": " ++ msg),
          organized := false,
          events := [ApplyEvent.updateCall f.path (effectiveMetadata f top)
            s.backup_before_changes] } := by
  unfold applyStep
  rw [hs]
  simp [ht]

theorem applyStep_ok_current_metadata (s : AppSettings) (folder : String)
    (ren org : Option String) (f : EnhancedAudioFile) (top : MetadataResult)
    (rest : List MetadataResult)
    (hs : f.suggested_metadata = some (top :: rest))
    (ht : (strTruthy top.genre || strTruthy top.artist) = true) :
    (applyStep s folder (Except.ok ()) ren org f).file.current_metadata
      = some (effectiveMetadata f top) := by
  unfold applyStep
  rw [hs]
  simp [ht, organizePhase_current_metadata, renamePhase_current_metadata]

theorem applyStep_ok_flags (s : AppSettings) (folder : String)
    (ren org : Option String) (f : EnhancedAudioFile) (top : MetadataResult)
    (rest : List MetadataResult)
    (hs : f.suggested_metadata = some (top :: rest))
    (ht : (strTruthy top.genre || strTruthy top.artist) = true) :
    (applyStep s folder (Except.ok ()) ren org f).succ = true
      ∧ (applyStep s folder (Except.ok ()) ren org f).errMsg = none := by
  unfold applyStep
  rw [hs]
  simp [ht]

theorem applyStep_ok_filename_renamed (s : AppSettings) (folder : String)
    (org : Option String) (f : EnhancedAudioFile) (top : MetadataResult)
    (rest : List MetadataResult) (p : String)
    (hs : f.suggested_metadata = some (top :: rest))
    (ht : (strTruthy top.genre || strTruthy top.artist) = true)
    (hren : s.rename_files = true) :
    (applyStep s folder (Except.ok ()) (some p) org f).file.filename
      = (if jsSplitPop '/' p = "" then f.filename else jsSplitPop '/' p) := by
  unfold applyStep
  rw [hs]
  simp [ht, organizePhase_filename, renamePhase, hren]

-- Facts about the JavaScript-style split.

theorem splitChar_ne_nil (c : Char) (l : List Char) : splitChar c l ≠ [] := by
  induction l with
  | nil => simp [splitChar]
  | cons x xs ih =>
      unfold splitChar
      split
      · simp
      · match h : splitChar c xs with
        | [] => simp
        | hd :: tl => simp

theorem splitChar_of_not_mem (c : Char) (l : List Char) (h : c ∉ l) :
    splitChar c l = [l] := by
  induction l with
  | nil => rfl
  | cons x xs ih =>
      have hx : ¬ x = c := fun he => h (he ▸ List.mem_cons_self x xs)
      have hxs : c ∉ xs := fun hm => h (List.mem_cons_of_mem x hm)
      unfold splitChar
      rw [if_neg hx, ih hxs]

theorem splitChar_length_ge_two (c : Char) (l : List Char) (h : c ∈ l) :
    2 ≤ (splitChar c l).length := by
  induction l with
  | nil => cases h
  | cons x xs ih =>
      unfold splitChar
      by_cases hx : x = c
      · rw [if_pos hx]
        have h1 := splitChar_ne_nil c xs
        have h2 : 0 < (splitChar c xs).length := List.length_pos.mpr h1
        simp only [List.length_cons]
        omega
      · rw [if_neg hx]
        have h1 : c ∈ xs := by
          rcases List.mem_cons.mp h with h2 | h2
          · exact absurd h2.symm hx
          · exact h2
        have h2 := ih h1
        match hsp : splitChar c xs with
        | [] => rw [hsp] at h2; simp at h2
        | hd :: tl =>
            rw [hsp] at h2
            simp only [List.length_cons] at h2 ⊢
            omega

theorem splitChar_getLast_concat_sep (c : Char) (l : List Char) :
    (splitChar c (l ++ [c])).getLast? = some [] := by
  induction l with
  | nil => simp [splitChar]
  | cons x xs ih =>
      simp only [List.cons_append]
      unfold splitChar
      by_cases hx : x = c
      · rw [if_pos hx]
        have hne := splitChar_ne_nil c (xs ++ [c])
        match hsp : splitChar c (xs ++ [c]) with
        | [] => exact absurd hsp hne
        | hd :: tl =>
            rw [hsp] at ih
            rw [List.getLast?_cons_cons]
            exact ih
      · rw [if_neg hx]
        have hmem : c ∈ xs ++ [c] := by simp
        have hlen := splitChar_length_ge_two c _ hmem
        match hsp : splitChar c (xs ++ [c]) with
        | [] => rw [hsp] at hlen; simp at hlen
        | [hd] => rw [hsp] at hlen; simp at hlen
        | hd :: t1 :: tl =>
            rw [hsp] at ih
            rw [List.getLast?_cons_cons] at ih
            rw [List.getLast?_cons_cons]
            exact ih

theorem jsSplitPop_no_sep (c : Char) (p : String) (h : c ∉ p.toList) :
    jsSplitPop c p = p := by
  unfold jsSplitPop
  rw [splitChar_of_not_mem c _ h]
  rfl

theorem jsSplitPop_trailing_sep (q : String) : jsSplitPop '/' (q ++ "/") = "" := by
  unfold jsSplitPop
  have h : (q ++ "/").toList = q.toList ++ ['/'] := by simp [String.toList]
  rw [h, List.getLastD_eq_getLast?, splitChar_getLast_concat_sep]
  rfl

-- Pass-level decomposition around one distinguished file.

theorem applyPass_files_split (s : AppSettings) (folder : String)
    (upd : Nat → Except String Unit) (ren org : Nat → Option String)
    (xs ys : List EnhancedAudioFile) (f : EnhancedAudioFile) :
    (applyPass s folder upd ren org (xs ++ f :: ys)).files
      = (applySteps s folder upd ren org 0 xs).map StepResult.file
        ++ (applyStep s folder (upd xs.length) (ren xs.length) (org xs.length) f).file
          :: (applySteps s folder upd ren org (xs.length + 1) ys).map StepResult.file := by
  show (applySteps s folder upd ren org 0 (xs ++ f :: ys)).map _ = _
  rw [applySteps_split]
  simp

theorem applyPass_file_at (s : AppSettings) (folder : String)
    (upd : Nat → Except String Unit) (ren org : Nat → Option String)
    (xs ys : List EnhancedAudioFile) (f : EnhancedAudioFile) (d : EnhancedAudioFile) :
    (applyPass s folder upd ren org (xs ++ f :: ys)).files.getD xs.length d
      = (applyStep s folder (upd xs.length) (ren xs.length) (org xs.length) f).file := by
  rw [applyPass_files_split]
  have h := getD_append_cons ((applySteps s folder upd ren org 0 xs).map StepResult.file)
    ((applyStep s folder (upd xs.length) (ren xs.length) (org xs.length) f).file)
    ((applySteps s folder upd ren org (xs.length + 1) ys).map StepResult.file) d
  rwa [List.length_map, applySteps_length] at h

theorem applyPass_successCount_split (s : AppSettings) (folder : String)
    (upd : Nat → Except String Unit) (ren org : Nat → Option String)
    (xs ys : List EnhancedAudioFile) (f : EnhancedAudioFile) :
    (applyPass s folder upd ren org (xs ++ f :: ys)).successCount
      = countSuccesses (applySteps s folder upd ren org 0 xs)
        + ((if (applyStep s folder (upd xs.length) (ren xs.length) (org xs.length) f).succ
              then 1 else 0)
          + countSuccesses (applySteps s folder upd ren org (xs.length + 1) ys)) := by
  show countSuccesses (applySteps s folder upd ren org 0 (xs ++ f :: ys)) = _
  rw [applySteps_split, countSuccesses_append, countSuccesses_cons]

theorem applyPass_errorCount_split (s : AppSettings) (folder : String)
    (upd : Nat → Except String Unit) (ren org : Nat → Option String)
    (xs ys : List EnhancedAudioFile) (f : EnhancedAudioFile) :
    (applyPass s folder upd ren org (xs ++ f :: ys)).errorCount
      = countErrors (applySteps s folder upd ren org 0 xs)
        + ((if (applyStep s folder (upd xs.length) (ren xs.length) (org xs.length) f).errMsg.isSome
              then 1 else 0)
          + countErrors (applySteps s folder upd ren org (xs.length + 1) ys)) := by
  show countErrors (applySteps s folder upd ren org 0 (xs ++ f :: ys)) = _
  rw [applySteps_split, countErrors_append, countErrors_cons]

theorem applyPass_organizedCount_split (s : AppSettings) (folder : String)
    (upd : Nat → Except String Unit) (ren org : Nat → Option String)
    (xs ys : List EnhancedAudioFile) (f : EnhancedAudioFile) :
    (applyPass s folder upd ren org (xs ++ f :: ys)).organizedCount
      = countOrganized (applySteps s folder upd ren org 0 xs)
        + ((if (applyStep s folder (upd xs.length) (ren xs.length) (org xs.length) f).organized
              then 1 else 0)
          + countOrganized (applySteps s folder upd ren org (xs.length + 1) ys)) := by
  show countOrganized (applySteps s folder upd ren org 0 (xs ++ f :: ys)) = _
  rw [applySteps_split, countOrganized_append, countOrganized_cons]

theorem applyPass_errors_split (s : AppSettings) (folder : String)
    (upd : Nat → Except String Unit) (ren org : Nat → Option String)
    (xs ys : List EnhancedAudioFile) (f : EnhancedAudioFile) :
    (applyPass s folder upd ren org (xs ++ f :: ys)).errors
      = collectErrors (applySteps s folder upd ren org 0 xs)
        ++ ((applyStep s folder (upd xs.length) (ren xs.length) (org xs.length) f).errMsg.toList
          ++ collectErrors (applySteps s folder upd ren org (xs.length + 1) ys)) := by
  show collectErrors (applySteps s folder upd ren org 0 (xs ++ f :: ys)) = _
  rw [applySteps_split, collectErrors_append, collectErrors_cons]

theorem applyPass_events_split (s : AppSettings) (folder : String)
    (upd : Nat → Except String Unit) (ren org : Nat → Option String)
    (xs ys : List EnhancedAudioFile) (f : EnhancedAudioFile) :
    (applyPass s folder upd ren org (xs ++ f :: ys)).events
      = collectEvents (applySteps s folder upd ren org 0 xs)
        ++ ((applyStep s folder (upd xs.length) (ren xs.length) (org xs.length) f).events
          ++ collectEvents (applySteps s folder upd ren org (xs.length + 1) ys)) := by
  show collectEvents (applySteps s folder upd ren org 0 (xs ++ f :: ys)) = _
  rw [applySteps_split, collectEvents_append, collectEvents_cons]

theorem resolutionPass_files_split (fetch : Nat → Option (List MetadataResult))
    (xs ys : List EnhancedAudioFile) (f : EnhancedAudioFile) :
    (resolutionPass fetch (xs ++ f :: ys)).files
      = (resolveSteps fetch 0 xs).map ResolveStepResult.file
        ++ (resolveStep (fetch xs.length) f).file
          :: (resolveSteps fetch (xs.length + 1) ys).map ResolveStepResult.file := by
  show (resolveSteps fetch 0 (xs ++ f :: ys)).map _ = _
  rw [resolveSteps_split]
  simp

theorem resolutionPass_file_at (fetch : Nat → Option (List MetadataResult))
    (xs ys : List EnhancedAudioFile) (f : EnhancedAudioFile) (d : EnhancedAudioFile) :
    (resolutionPass fetch (xs ++ f :: ys)).files.getD xs.length d
      = (resolveStep (fetch xs.length) f).file := by
  rw [resolutionPass_files_split]
  have h := getD_append_cons ((resolveSteps fetch 0 xs).map ResolveStepResult.file)
    ((resolveStep (fetch xs.length) f).file)
    ((resolveSteps fetch (xs.length + 1) ys).map ResolveStepResult.file) d
  rwa [List.length_map, resolveSteps_length] at h

theorem resolutionPass_events_split (fetch : Nat → Option (List MetadataResult))
    (xs ys : List EnhancedAudioFile) (f : EnhancedAudioFile) :
    (resolutionPass fetch (xs ++ f :: ys)).events
      = collectResolveEvents (resolveSteps fetch 0 xs)
        ++ ((resolveStep (fetch xs.length) f).events
          ++ collectResolveEvents (resolveSteps fetch (xs.length + 1) ys)) := by
  show collectResolveEvents (resolveSteps fetch 0 (xs ++ f :: ys)) = _
  rw [resolveSteps_split, collectResolveEvents_append, collectResolveEvents_cons]

-- Per-step lemmas for the resolution loop body.

theorem resolveStep_ineligible (o : Option (List MetadataResult)) (f : EnhancedAudioFile)
    (h : eligibleForFetch f = false) :
    resolveStep o f = { file := f, events := [] } := by
  simp [resolveStep, h]

theorem resolveStep_eligible_some (rs : List MetadataResult) (f : EnhancedAudioFile)
    (h : eligibleForFetch f = true) :
    resolveStep (some rs) f
      = { file := { f with suggested_metadata := some rs }
          events := [ResolveEvent.fetchCall ((f.current_metadata.bind Metadata.artist).getD "")
            ((f.current_metadata.bind Metadata.title).getD "")] } := by
  simp [resolveStep, h]

theorem resolveStep_eligible_none (f : EnhancedAudioFile)
    (h : eligibleForFetch f = true) :
    resolveStep none f
      = { file := f
          events := [ResolveEvent.fetchCall ((f.current_metadata.bind Metadata.artist).getD "")
            ((f.current_metadata.bind Metadata.title).getD "")] } := by
  simp [resolveStep, h]

-- Progress-list lemmas.

theorem pairwise_le_range_map (g : ℕ → ℚ) (n : ℕ) (hg : ∀ a b, a < b → g a ≤ g b) :
    ((List.range n).map g).Pairwise (fun a b => a ≤ b) :=
  List.Pairwise.map g hg (List.pairwise_lt_range n)

theorem getLastD_range_map (g : ℕ → ℚ) (n : ℕ) (hn : n ≠ 0) (d : ℚ) :
    ((List.range n).map g).getLastD d = g (n - 1) := by
  obtain ⟨m, rfl⟩ := Nat.exists_eq_succ_of_ne_zero hn
  rw [List.range_succ, List.map_append]
  simp

-- Claim theorems.

/-- C1: in the apply pass, every file whose `update_metadata` write
succeeds ends the pass with `current_metadata` equal to the effective
metadata built for it, and every file whose write fails ends the pass
with `current_metadata` equal to its pre-apply value. -/
theorem apply_write_outcome_determines_current_metadata
    (s : AppSettings) (folder : String) (upd : Nat → Except String Unit)
    (ren org : Nat → Option String) (xs ys : List EnhancedAudioFile)
    (f : EnhancedAudioFile) (top : MetadataResult) (rest : List MetadataResult)
    (hs : f.suggested_metadata = some (top :: rest))
    (ht : (strTruthy top.genre || strTruthy top.artist) = true) :
    (upd xs.length = Except.ok () →
      ((applyPass s folder upd ren org (xs ++ f :: ys)).files.getD xs.length
          default).current_metadata
        = some (effectiveMetadata f top)) ∧
    (∀ msg, upd xs.length = Except.error msg →
      ((applyPass s folder upd ren org (xs ++ f :: ys)).files.getD xs.length
          default).current_metadata
        = f.current_metadata) := by
  constructor
  · intro hok
    rw [applyPass_file_at, hok,
      applyStep_ok_current_metadata s folder (ren xs.length) (org xs.length) f top rest hs ht]
  · intro msg hfail
    rw [applyPass_file_at, hfail,
      applyStep_error s folder (ren xs.length) (org xs.length) f top rest msg hs ht]

/-- Witness for C1: concrete one-file inventory with a succeeding write. -/
theorem apply_write_outcome_determines_current_metadata_witness :
    ((applyPass settingsW "" (fun _ => Except.ok ()) (fun _ => none) (fun _ => none)
        [fW]).files.getD 0 default).current_metadata
      = some (effectiveMetadata fW topHouse) :=
  (apply_write_outcome_determines_current_metadata settingsW "" (fun _ => Except.ok ())
    (fun _ => none) (fun _ => none) [] [] fW topHouse [] rfl (by decide)).1 rfl

/-- C4: a write failure is terminal for its file: the failure count goes
up by exactly one, `"<filename>: <message>"` is appended to the error
list in position, the only collaborator call for the file is the write
itself (no rename, no organize), the file is returned unchanged, and the
files before and after it are processed as usual. -/
theorem apply_write_failure_terminal
    (s : AppSettings) (folder : String) (upd : Nat → Except String Unit)
    (ren org : Nat → Option String) (xs ys : List EnhancedAudioFile)
    (f : EnhancedAudioFile) (top : MetadataResult) (rest : List MetadataResult)
    (msg : String)
    (hs : f.suggested_metadata = some (top :: rest))
    (ht : (strTruthy top.genre || strTruthy top.artist) = true)
    (hfail : upd xs.length = Except.error msg) :
    (applyPass s folder upd ren org (xs ++ f :: ys)).errorCount
      = countErrors (applySteps s folder upd ren org 0 xs)
        + (1 + countErrors (applySteps s folder upd ren org (xs.length + 1) ys)) ∧
    (applyPass s folder upd ren org (xs ++ f :: ys)).errors
      = collectErrors (applySteps s folder upd ren org 0 xs)
        ++ ((f.filename ++ ": " ++ msg)
          :: collectErrors (applySteps s folder upd ren org (xs.length + 1) ys)) ∧
    (applyStep s folder (upd xs.length) (ren xs.length) (org xs.length) f).events
      = [ApplyEvent.updateCall f.path (effectiveMetadata f top) s.backup_before_changes] ∧
    (applyPass s folder upd ren org (xs ++ f :: ys)).files
      = (applySteps s folder upd ren org 0 xs).map StepResult.file
        ++ f :: (applySteps s folder upd ren org (xs.length + 1) ys).map
            StepResult.file := by
  have hstep := applyStep_error s folder (ren xs.length) (org xs.length) f top rest msg hs ht
  refine ⟨?_, ?_, ?_, ?_⟩
  · rw [applyPass_errorCount_split, hfail, hstep]
    simp
  · rw [applyPass_errors_split, hfail, hstep]
    rfl
  · rw [hfail, hstep]
  · rw [applyPass_files_split, hfail, hstep]

/-- Witness for C4: one-file inventory, rename enabled, write failing. -/
theorem apply_write_failure_terminal_witness :
    (applyPass settingsRen "" (fun _ => Except.error "disk full")
        (fun _ => some "/x/y.mp3") (fun _ => none) [fW]).errorCount = 0 + (1 + 0) ∧
    (applyPass settingsRen "" (fun _ => Except.error "disk full")
        (fun _ => some "/x/y.mp3") (fun _ => none) [fW]).errors
      = [] ++ (("one.mp3" ++ ": " ++ "disk full") :: []) ∧
    (applyStep settingsRen "" (Except.error "disk full") (some "/x/y.mp3") none fW).events
      = [ApplyEvent.updateCall "/music/one.mp3" (effectiveMetadata fW topHouse)
          true] ∧
    (applyPass settingsRen "" (fun _ => Except.error "disk full")
        (fun _ => some "/x/y.mp3") (fun _ => none) [fW]).files = [] ++ fW :: [] :=
  apply_write_failure_terminal settingsRen "" (fun _ => Except.error "disk full")
    (fun _ => some "/x/y.mp3") (fun _ => none) [] [] fW topHouse [] "disk full"
    rfl (by decide) rfl

/-- C5: when the write succeeds, the file counts as a success whatever the
rename and organize oracles do: the success count goes up by one, the
failure count and error list get no contribution from this file, and the
metadata write is not reverted. -/
theorem apply_success_independent_of_rename_organize
    (s : AppSettings) (folder : String) (upd : Nat → Except String Unit)
    (ren org : Nat → Option String) (xs ys : List EnhancedAudioFile)
    (f : EnhancedAudioFile) (top : MetadataResult) (rest : List MetadataResult)
    (hs : f.suggested_metadata = some (top :: rest))
    (ht : (strTruthy top.genre || strTruthy top.artist) = true)
    (hok : upd xs.length = Except.ok ()) :
    (applyPass s folder upd ren org (xs ++ f :: ys)).successCount
      = countSuccesses (applySteps s folder upd ren org 0 xs)
        + (1 + countSuccesses (applySteps s folder upd ren org (xs.length + 1) ys)) ∧
    (applyPass s folder upd ren org (xs ++ f :: ys)).errorCount
      = countErrors (applySteps s folder upd ren org 0 xs)
        + countErrors (applySteps s folder upd ren org (xs.length + 1) ys) ∧
    (applyPass s folder upd ren org (xs ++ f :: ys)).errors
      = collectErrors (applySteps s folder upd ren org 0 xs)
        ++ collectErrors (applySteps s folder upd ren org (xs.length + 1) ys) ∧
    ((applyPass s folder upd ren org (xs ++ f :: ys)).files.getD xs.length
        default).current_metadata
      = some (effectiveMetadata f top) := by
  have hflags := applyStep_ok_flags s folder (ren xs.length) (org xs.length) f top rest hs ht
  refine ⟨?_, ?_, ?_, ?_⟩
  · rw [applyPass_successCount_split, hok]
    simp [hflags.1]
  · rw [applyPass_errorCount_split, hok]
    simp [hflags.2]
  · rw [applyPass_errors_split, hok]
    simp [hflags.2]
  · rw [applyPass_file_at, hok,
      applyStep_ok_current_metadata s folder (ren xs.length) (org xs.length) f top rest hs ht]

/-- Witness for C5: one-file inventory, rename enabled and failing, write
succeeding; the file still counts as the one success. -/
theorem apply_success_independent_of_rename_organize_witness :
    (applyPass settingsRen "" (fun _ => Except.ok ()) (fun _ => none) (fun _ => none)
        [fW]).successCount = 0 + (1 + 0) ∧
    (applyPass settingsRen "" (fun _ => Except.ok ()) (fun _ => none) (fun _ => none)
        [fW]).errorCount = 0 + 0 ∧
    (applyPass settingsRen "" (fun _ => Except.ok ()) (fun _ => none) (fun _ => none)
        [fW]).errors = [] ++ [] ∧
    ((applyPass settingsRen "" (fun _ => Except.ok ()) (fun _ => none) (fun _ => none)
        [fW]).files.getD 0 default).current_metadata
      = some (effectiveMetadata fW topHouse) :=
  apply_success_independent_of_rename_organize settingsRen "" (fun _ => Except.ok ())
    (fun _ => none) (fun _ => none) [] [] fW topHouse [] rfl (by decide) rfl

/-- C6: a file with no applicable suggestion (no suggestion list, an
empty one, or a top suggestion with neither a truthy genre nor a truthy
artist) is skipped: it is returned unchanged and contributes nothing to
the success count, the failure count, the error list, the organized
count, or the collaborator-call trace. -/
theorem apply_skip_contributes_nothing
    (s : AppSettings) (folder : String) (upd : Nat → Except String Unit)
    (ren org : Nat → Option String) (xs ys : List EnhancedAudioFile)
    (f : EnhancedAudioFile)
    (hskip : hasApplicableSuggestion f = false) :
    (applyPass s folder upd ren org (xs ++ f :: ys)).files
      = (applySteps s folder upd ren org 0 xs).map StepResult.file
        ++ f :: (applySteps s folder upd ren org (xs.length + 1) ys).map
            StepResult.file ∧
    (applyPass s folder upd ren org (xs ++ f :: ys)).successCount
      = countSuccesses (applySteps s folder upd ren org 0 xs)
        + countSuccesses (applySteps s folder upd ren org (xs.length + 1) ys) ∧
    (applyPass s folder upd ren org (xs ++ f :: ys)).errorCount
      = countErrors (applySteps s folder upd ren org 0 xs)
        + countErrors (applySteps s folder upd ren org (xs.length + 1) ys) ∧
    (applyPass s folder upd ren org (xs ++ f :: ys)).errors
      = collectErrors (applySteps s folder upd ren org 0 xs)
        ++ collectErrors (applySteps s folder upd ren org (xs.length + 1) ys) ∧
    (applyPass s folder upd ren org (xs ++ f :: ys)).organizedCount
      = countOrganized (applySteps s folder upd ren org 0 xs)
        + countOrganized (applySteps s folder upd ren org (xs.length + 1) ys) ∧
    (applyPass s folder upd ren org (xs ++ f :: ys)).events
      = collectEvents (applySteps s folder upd ren org 0 xs)
        ++ collectEvents (applySteps s folder upd ren org (xs.length + 1) ys) := by
  have hstep := applyStep_skip s folder (upd xs.length) (ren xs.length) (org xs.length) f hskip
  refine ⟨?_, ?_, ?_, ?_, ?_, ?_⟩
  · rw [applyPass_files_split, hstep]
  · rw [applyPass_successCount_split, hstep]
    simp
  · rw [applyPass_errorCount_split, hstep]
    simp
  · rw [applyPass_errors_split, hstep]
    rfl
  · rw [applyPass_organizedCount_split, hstep]
    simp
  · rw [applyPass_events_split, hstep]
    rfl

/-- Suggestion with neither genre nor artist. -/
def emptyResult : MetadataResult :=
  { genre := none, artist := none, confidence := Confidence.Low, source := "Y" }

/-- File whose top suggestion has neither genre nor artist. -/
def fSkip : EnhancedAudioFile :=
  { fW with suggested_metadata := some [emptyResult] }

/-- Witness for C6: a file whose top suggestion has neither genre nor
artist, between no other files. -/
theorem apply_skip_contributes_nothing_witness :
    (applyPass settingsW "/base" (fun _ => Except.ok ()) (fun _ => none) (fun _ => none)
        [fSkip]).files = [] ++ fSkip :: [] ∧
    (applyPass settingsW "/base" (fun _ => Except.ok ()) (fun _ => none) (fun _ => none)
        [fSkip]).successCount = 0 + 0 ∧
    (applyPass settingsW "/base" (fun _ => Except.ok ()) (fun _ => none) (fun _ => none)
        [fSkip]).errorCount = 0 + 0 ∧
    (applyPass settingsW "/base" (fun _ => Except.ok ()) (fun _ => none) (fun _ => none)
        [fSkip]).errors = [] ++ [] ∧
    (applyPass settingsW "/base" (fun _ => Except.ok ()) (fun _ => none) (fun _ => none)
        [fSkip]).organizedCount = 0 + 0 ∧
    (applyPass settingsW "/base" (fun _ => Except.ok ()) (fun _ => none) (fun _ => none)
        [fSkip]).events = [] ++ [] :=
  apply_skip_contributes_nothing settingsW "/base" (fun _ => Except.ok ())
    (fun _ => none) (fun _ => none) [] [] fSkip (by decide)

/-- C9: the apply pass on an empty inventory terminates with all counts
zero, an empty error list, no collaborator calls, no per-file progress
update (the progress value stays at its initial 0), and the exact status
message "Completed! 0 files updated successfully". -/
theorem apply_empty_inventory (s : AppSettings) (folder : String)
    (upd : Nat → Except String Unit) (ren org : Nat → Option String) :
    applyPass s folder upd ren org []
      = { files := [], successCount := 0, errorCount := 0, organizedCount := 0,
          errors := [], events := [], progressUpdates := [], finalProgress := 0,
          statusMessage := "Completed! 0 files updated successfully" } := by
  have h : applySteps s folder upd ren org 0 [] = [] := rfl
  simp only [applyPass, h]
  decide

-- Small facts about the JavaScript `||` helpers.

theorem jsOrStr_truthy (a b : Option String) (h : strTruthy a = true) :
    jsOrStr a b = a := by
  simp [jsOrStr, h]

theorem jsOrStr_falsy (a b : Option String) (h : strTruthy a = false) :
    jsOrStr a b = b := by
  simp [jsOrStr, h]

/-- Current metadata whose year is 0, a JavaScript-falsy number. -/
def mdYearZero : Metadata :=
  { title := some "T", artist := some "A", album := none, genre := none,
    year := some 0, bpm := none }

/-- Genre-only provider suggestion. -/
def topGenreOnly : MetadataResult :=
  { genre := some "House", artist := none, confidence := Confidence.High,
    source := "X" }

/-- File with current year 0 and `topGenreOnly` as accepted suggestion. -/
def fYearZero : EnhancedAudioFile :=
  { path := "/m/z.mp3", filename := "z.mp3", extension := "mp3",
    current_metadata := some mdYearZero,
    suggested_metadata := some [topGenreOnly], selected_genre := none }

/-- C2 counterexample: for `fYearZero`, whose current year is 0, the
effective metadata built by the apply pass has year `none`, so "year is
carried over unchanged from current metadata" is false on the code. -/
theorem effectiveMetadata_year_zero_counterexample :
    fYearZero.suggested_metadata = some [topGenreOnly] ∧
    fYearZero.current_metadata.bind Metadata.year = some 0 ∧
    (effectiveMetadata fYearZero topGenreOnly).year = none ∧
    (effectiveMetadata fYearZero topGenreOnly).year
      ≠ fYearZero.current_metadata.bind Metadata.year := by
  refine ⟨rfl, rfl, ?_, ?_⟩ <;> decide

/-- C2 (amended): the effective metadata is built from element 0 of the
suggestion list; genre and artist are overridden by the suggestion when
that value is truthy (present and non-empty) and otherwise fall back to
the current value when that is truthy; title, album, year and bpm are
carried over from current metadata exactly when truthy, with
JavaScript-falsy values (absent, empty string, zero) normalised to
`none`. -/
theorem effectiveMetadata_field_characterisation
    (f : EnhancedAudioFile) (top : MetadataResult) (cur : Metadata)
    (hc : f.current_metadata = some cur) :
    (strTruthy top.genre = true → (effectiveMetadata f top).genre = top.genre) ∧
    (strTruthy top.genre = false → strTruthy cur.genre = true →
      (effectiveMetadata f top).genre = cur.genre) ∧
    (strTruthy top.genre = false → strTruthy cur.genre = false →
      (effectiveMetadata f top).genre = none) ∧
    (strTruthy top.artist = true → (effectiveMetadata f top).artist = top.artist) ∧
    (strTruthy top.artist = false → strTruthy cur.artist = true →
      (effectiveMetadata f top).artist = cur.artist) ∧
    (strTruthy top.artist = false → strTruthy cur.artist = false →
      (effectiveMetadata f top).artist = none) ∧
    (strTruthy cur.title = true → (effectiveMetadata f top).title = cur.title) ∧
    (strTruthy cur.title = false → (effectiveMetadata f top).title = none) ∧
    (strTruthy cur.album = true → (effectiveMetadata f top).album = cur.album) ∧
    (strTruthy cur.album = false → (effectiveMetadata f top).album = none) ∧
    (intTruthy cur.year = true → (effectiveMetadata f top).year = cur.year) ∧
    (intTruthy cur.year = false → (effectiveMetadata f top).year = none) ∧
    (intTruthy cur.bpm = true → (effectiveMetadata f top).bpm = cur.bpm) ∧
    (intTruthy cur.bpm = false → (effectiveMetadata f top).bpm = none) := by
  have hbt : f.current_metadata.bind Metadata.title = cur.title := by rw [hc]; rfl
  have hba : f.current_metadata.bind Metadata.artist = cur.artist := by rw [hc]; rfl
  have hbal : f.current_metadata.bind Metadata.album = cur.album := by rw [hc]; rfl
  have hbg : f.current_metadata.bind Metadata.genre = cur.genre := by rw [hc]; rfl
  have hby : f.current_metadata.bind Metadata.year = cur.year := by rw [hc]; rfl
  have hbb : f.current_metadata.bind Metadata.bpm = cur.bpm := by rw [hc]; rfl
  refine ⟨fun h => ?_, fun h h2 => ?_, fun h h2 => ?_, fun h => ?_, fun h h2 => ?_,
    fun h h2 => ?_, fun h => ?_, fun h => ?_, fun h => ?_, fun h => ?_, fun h => ?_,
    fun h => ?_, fun h => ?_, fun h => ?_⟩ <;>
    simp_all [effectiveMetadata, jsOrStr, jsOrInt, hbt, hba, hbal, hbg, hby, hbb]

/-- Witness for the amended C2 at a concrete file: the truthy suggested
genre overrides and the truthy year is carried over. -/
theorem effectiveMetadata_field_characterisation_witness :
    (effectiveMetadata fW topHouse).genre = topHouse.genre ∧
    (effectiveMetadata fW topHouse).year = mdFull.year :=
  ⟨(effectiveMetadata_field_characterisation fW topHouse mdFull rfl).1 (by decide),
    (effectiveMetadata_field_characterisation fW topHouse mdFull
      rfl).2.2.2.2.2.2.2.2.2.2.1 (by decide)⟩

/-- Current metadata with artist but no title. -/
def mdArtistOnly : Metadata :=
  { title := none, artist := some "Daft Punk", album := none, genre := none,
    year := none, bpm := none }

/-- Unannotated file with artist but no title. -/
def fArtistOnly : EnhancedAudioFile :=
  { path := "/m/a.mp3", filename := "a.mp3", extension := "mp3",
    current_metadata := some mdArtistOnly, suggested_metadata := none,
    selected_genre := none }

/-- C3 counterexample: `fArtistOnly` has an artist, so it does not lack
both artist and title, and the fetch oracle would succeed with a
non-empty ranked list on every call; yet the resolution pass leaves its
`suggested_metadata` unset and never invokes the boundary — refuting
"every file that is not lacking both has the boundary invoked and the
ranked sequence attached on success". -/
theorem resolution_missing_title_counterexample :
    strTruthy (fArtistOnly.current_metadata.bind Metadata.artist) = true ∧
    ((resolutionPass (fun _ => some [topHouse]) [fArtistOnly]).files.getD 0
        default).suggested_metadata = none ∧
    ((resolutionPass (fun _ => some [topHouse]) [fArtistOnly]).files.getD 0
        default).suggested_metadata ≠ some [topHouse] ∧
    (resolutionPass (fun _ => some [topHouse]) [fArtistOnly]).events = [] := by
  refine ⟨?_, ?_, ?_, ?_⟩ <;> decide

/-- C3 (amended): the resolution pass skips exactly the files lacking a
truthy artist or a truthy title (or both) — they are returned untouched
with no boundary call — while every file with both artist and title
truthy has the fetch boundary invoked with those values and, on a
successful fetch, the returned ranked sequence attached as its
`suggested_metadata`. -/
theorem resolution_skips_exactly_files_missing_artist_or_title
    (fetch : Nat → Option (List MetadataResult))
    (xs ys : List EnhancedAudioFile) (f : EnhancedAudioFile) :
    ((strTruthy (f.current_metadata.bind Metadata.artist) = false ∨
        strTruthy (f.current_metadata.bind Metadata.title) = false) →
      (resolutionPass fetch (xs ++ f :: ys)).files.getD xs.length default = f ∧
      (resolveStep (fetch xs.length) f).events = []) ∧
    (strTruthy (f.current_metadata.bind Metadata.artist) = true →
      strTruthy (f.current_metadata.bind Metadata.title) = true →
      (resolveStep (fetch xs.length) f).events
        = [ResolveEvent.fetchCall ((f.current_metadata.bind Metadata.artist).getD "")
            ((f.current_metadata.bind Metadata.title).getD "")] ∧
      ∀ rs, fetch xs.length = some rs →
        ((resolutionPass fetch (xs ++ f :: ys)).files.getD xs.length
            default).suggested_metadata = some rs) := by
  constructor
  · intro h
    have he : eligibleForFetch f = false := by
      unfold eligibleForFetch
      rcases h with h | h <;> simp [h]
    have hstep := resolveStep_ineligible (fetch xs.length) f he
    constructor
    · rw [resolutionPass_file_at, hstep]
    · rw [hstep]
  · intro ha htt
    have he : eligibleForFetch f = true := by
      unfold eligibleForFetch
      simp [ha, htt]
    constructor
    · cases hf : fetch xs.length with
      | none => rw [resolveStep_eligible_none f he]
      | some rs => rw [resolveStep_eligible_some rs f he]
    · intro rs hrs
      rw [resolutionPass_file_at, hrs, resolveStep_eligible_some rs f he]

/-- Witness for the amended C3: a file with both artist and title truthy
gets the successful fetch result attached. -/
theorem resolution_skips_exactly_witness :
    ((resolutionPass (fun _ => some [topHouse]) [fW]).files.getD 0
        default).suggested_metadata = some [topHouse] :=
  ((resolution_skips_exactly_files_missing_artist_or_title
      (fun _ => some [topHouse]) [] [] fW).2 (by decide) (by decide)).2 [topHouse] rfl

/-- C8: a fetch failure during resolution is isolated: the failing file is
returned unchanged (so a previously unset `suggested_metadata` stays
unset), every other file is processed as usual, and the per-file progress
sequence is still the full formula over the whole inventory — progress
advances for the failing file too. -/
theorem resolution_fetch_failure_isolated
    (fetch : Nat → Option (List MetadataResult))
    (xs ys : List EnhancedAudioFile) (f : EnhancedAudioFile)
    (helig : eligibleForFetch f = true)
    (hfail : fetch xs.length = none) :
    (resolutionPass fetch (xs ++ f :: ys)).files
      = (resolveSteps fetch 0 xs).map ResolveStepResult.file
        ++ f :: (resolveSteps fetch (xs.length + 1) ys).map ResolveStepResult.file ∧
    (f.suggested_metadata = none →
      ((resolutionPass fetch (xs ++ f :: ys)).files.getD xs.length
          default).suggested_metadata = none) ∧
    (resolutionPass fetch (xs ++ f :: ys)).progressUpdates
      = (List.range (xs ++ f :: ys).length).map
          (resProgressFormula (xs ++ f :: ys).length) := by
  have hstep := resolveStep_eligible_none f helig
  refine ⟨?_, ?_, rfl⟩
  · rw [resolutionPass_files_split, hfail, hstep]
  · intro hunset
    rw [resolutionPass_file_at, hfail, hstep]
    exact hunset

/-- Witness for C8: one eligible file whose fetch throws. -/
theorem resolution_fetch_failure_isolated_witness :
    (resolutionPass (fun _ => none) [fW]).files
      = (resolveSteps (fun _ => none) 0 []).map ResolveStepResult.file
        ++ fW :: (resolveSteps (fun _ => none) (0 + 1) []).map ResolveStepResult.file ∧
    (fW.suggested_metadata = none →
      ((resolutionPass (fun _ => none) [fW]).files.getD 0
          default).suggested_metadata = none) ∧
    (resolutionPass (fun _ => none) [fW]).progressUpdates
      = (List.range ([] ++ fW :: ([] : List EnhancedAudioFile)).length).map
          (resProgressFormula ([] ++ fW :: ([] : List EnhancedAudioFile)).length) :=
  resolution_fetch_failure_isolated (fun _ => none) [] [] fW (by decide) rfl

/-- C7: over a non-empty inventory, the per-file progress sequence of each
pass follows its formula (resolution: 50 + (i+1)/n·50 on the 50–100 span,
apply: (i+1)/n·100), is monotonically non-decreasing across the pass, and
its last value — the progress reported after the final file — is exactly
100 on that pass's scale. -/
theorem pass_progress_formula_monotone_complete
    (fetch : Nat → Option (List MetadataResult)) (s : AppSettings) (folder : String)
    (upd : Nat → Except String Unit) (ren org : Nat → Option String)
    (files : List EnhancedAudioFile) (hne : files ≠ []) :
    (resolutionPass fetch files).progressUpdates
      = (List.range files.length).map (resProgressFormula files.length) ∧
    (resolutionPass fetch files).progressUpdates.Pairwise (fun a b => a ≤ b) ∧
    (resolutionPass fetch files).finalProgress = 100 ∧
    (applyPass s folder upd ren org files).progressUpdates
      = (List.range files.length).map (appProgressFormula files.length) ∧
    (applyPass s folder upd ren org files).progressUpdates.Pairwise
      (fun a b => a ≤ b) ∧
    (applyPass s folder upd ren org files).finalProgress = 100 := by
  have hn0 : files.length ≠ 0 := fun h => hne (List.length_eq_zero.mp h)
  have hpos : (0 : ℚ) < (files.length : ℚ) := by
    exact_mod_cast Nat.pos_of_ne_zero hn0
  have hmono : ∀ a b : ℕ, a < b →
      ((a : ℚ) + 1) / (files.length : ℚ) ≤ ((b : ℚ) + 1) / (files.length : ℚ) := by
    intro a b hab
    have hc : (a : ℚ) ≤ (b : ℚ) := by exact_mod_cast hab.le
    exact div_le_div_of_nonneg_right (add_le_add_right hc 1) hpos.le
  obtain ⟨m, hm⟩ := Nat.exists_eq_succ_of_ne_zero hn0
  have hnz : ((m : ℚ) + 1) ≠ 0 := by positivity
  refine ⟨rfl, ?_, ?_, rfl, ?_, ?_⟩
  · refine pairwise_le_range_map (resProgressFormula files.length) files.length ?_
    intro a b hab
    unfold resProgressFormula
    exact add_le_add_left (mul_le_mul_of_nonneg_right (hmono a b hab) (by norm_num)) 50
  · show ((List.range files.length).map
        (resProgressFormula files.length)).getLastD 50 = 100
    rw [getLastD_range_map _ _ hn0, hm]
    unfold resProgressFormula
    simp only [Nat.succ_sub_one]
    push_cast
    rw [div_self hnz]
    norm_num
  · refine pairwise_le_range_map (appProgressFormula files.length) files.length ?_
    intro a b hab
    unfold appProgressFormula
    exact mul_le_mul_of_nonneg_right (hmono a b hab) (by norm_num)
  · show ((List.range files.length).map
        (appProgressFormula files.length)).getLastD 0 = 100
    rw [getLastD_range_map _ _ hn0, hm]
    unfold appProgressFormula
    simp only [Nat.succ_sub_one]
    push_cast
    rw [div_self hnz]
    norm_num

/-- Witness for C7 at a concrete one-file inventory. -/
theorem pass_progress_formula_monotone_complete_witness :
    (resolutionPass (fun _ => none) [fW]).progressUpdates
      = (List.range ([fW] : List EnhancedAudioFile).length).map
          (resProgressFormula ([fW] : List EnhancedAudioFile).length) ∧
    (resolutionPass (fun _ => none) [fW]).progressUpdates.Pairwise
      (fun a b => a ≤ b) ∧
    (resolutionPass (fun _ => none) [fW]).finalProgress = 100 ∧
    (applyPass settingsW "" (fun _ => Except.ok ()) (fun _ => none) (fun _ => none)
        [fW]).progressUpdates
      = (List.range ([fW] : List EnhancedAudioFile).length).map
          (appProgressFormula ([fW] : List EnhancedAudioFile).length) ∧
    (applyPass settingsW "" (fun _ => Except.ok ()) (fun _ => none) (fun _ => none)
        [fW]).progressUpdates.Pairwise (fun a b => a ≤ b) ∧
    (applyPass settingsW "" (fun _ => Except.ok ()) (fun _ => none) (fun _ => none)
        [fW]).finalProgress = 100 :=
  pass_progress_formula_monotone_complete (fun _ => none) settingsW ""
    (fun _ => Except.ok ()) (fun _ => none) (fun _ => none) [fW]
    (List.cons_ne_nil fW [])

/-- C10: after a successful rename during the apply pass, the stored
filename becomes the segment of the returned path after its last '/'
when that segment is non-empty; when the segment is empty (an empty
returned path, or one ending in '/'), the previous filename is retained;
a non-empty returned path containing no '/' at all becomes the filename
wholesale. -/
theorem apply_rename_updates_filename
    (s : AppSettings) (folder : String) (upd : Nat → Except String Unit)
    (ren org : Nat → Option String) (xs ys : List EnhancedAudioFile)
    (f : EnhancedAudioFile) (top : MetadataResult) (rest : List MetadataResult)
    (p : String)
    (hs : f.suggested_metadata = some (top :: rest))
    (ht : (strTruthy top.genre || strTruthy top.artist) = true)
    (hok : upd xs.length = Except.ok ())
    (hrf : s.rename_files = true)
    (hp : ren xs.length = some p) :
    ((applyPass s folder upd ren org (xs ++ f :: ys)).files.getD xs.length
        default).filename
      = (if jsSplitPop '/' p = "" then f.filename else jsSplitPop '/' p) ∧
    (jsSplitPop '/' p = "" →
      ((applyPass s folder upd ren org (xs ++ f :: ys)).files.getD xs.length
          default).filename = f.filename) ∧
    (p ≠ "" → '/' ∉ p.toList →
      ((applyPass s folder upd ren org (xs ++ f :: ys)).files.getD xs.length
          default).filename = p) ∧
    (∀ q, p = q ++ "/" →
      ((applyPass s folder upd ren org (xs ++ f :: ys)).files.getD xs.length
          default).filename = f.filename) := by
  have hbase : ((applyPass s folder upd ren org (xs ++ f :: ys)).files.getD xs.length
      default).filename
        = (if jsSplitPop '/' p = "" then f.filename else jsSplitPop '/' p) := by
    rw [applyPass_file_at, hok, hp,
      applyStep_ok_filename_renamed s folder (org xs.length) f top rest p hs ht hrf]
  refine ⟨hbase, ?_, ?_, ?_⟩
  · intro h
    rw [hbase, if_pos h]
  · intro hne hnm
    have hsp := jsSplitPop_no_sep '/' p hnm
    rw [hbase, hsp, if_neg hne]
  · intro q hq
    rw [hbase, hq, jsSplitPop_trailing_sep q, if_pos rfl]

/-- Witness for C10: rename succeeds with a multi-segment path. -/
theorem apply_rename_updates_filename_witness :
    ((applyPass settingsRen "" (fun _ => Except.ok ())
        (fun _ => some "/new/dir/two.mp3") (fun _ => none) [fW]).files.getD 0
        default).filename
      = (if jsSplitPop '/' "/new/dir/two.mp3" = "" then fW.filename
          else jsSplitPop '/' "/new/dir/two.mp3") :=
  (apply_rename_updates_filename settingsRen "" (fun _ => Except.ok ())
    (fun _ => some "/new/dir/two.mp3") (fun _ => none) [] [] fW topHouse []
    "/new/dir/two.mp3" rfl (by decide) rfl rfl rfl).1
